import Mathlib

/-!
# Verification of the `rust-factors` signature-collection coordinator

Shallow embedding of the `redone_functional` signatures-builder module
(`src/types.rs`, `src/signatures_builders/redone_functional/{sign_with_factors,
petitions, signatures_builder}.rs`) together with proofs about its petition
state machines, status combination, batching and ordering logic.

Modelling conventions:

* `IndexSet<T>` is modelled as a `List T`; insertion (`indexSetInsert`) is a
  no-op when the element is already present and otherwise appends at the end,
  exactly like `indexmap`'s `insert`.  Where a claim quantifies over arbitrary
  set values we carry `List.Nodup` hypotheses, which is the `IndexSet`
  representation invariant.
* Rust `i8` arithmetic is modelled on `Int` with explicit two's-complement
  wrapping (`wrap8`, that is reduction mod `2^8` into `[-128, 127]`) at every
  arithmetic operation the source performs on `i8` values, matching release
  semantics.  Casts `usize as i8` are likewise wrapped.
* Panics (`expect`, `assert!`, `unwrap`) are modelled by `Option`, `none`
  being the panic.
* `FactorSourceID`, `Signature`, `Hash` are fieldless unit structs in the
  source and are embedded as fieldless structures.
-/

namespace RustFactors

/-- `pub struct FactorSourceID;` — fieldless unit struct (src/types.rs). -/
structure FactorSourceID where
  deriving DecidableEq, Repr

/-- `enum FactorSourceKind` in declaration order from src/types.rs, which is
the order its derived `Ord` uses. -/
inductive FactorSourceKind where
  | ledger
  | arculus
  | securityQuestions
  | offDeviceMnemonic
  | device
  deriving DecidableEq, Repr

/-- Rank of a kind in the derived `Ord` (= declaration order). -/
def FactorSourceKind.rank : FactorSourceKind → Nat
  | .ledger => 0
  | .arculus => 1
  | .securityQuestions => 2
  | .offDeviceMnemonic => 3
  | .device => 4

/-- `pub struct FactorSource { kind, last_used: SystemTime, id }`.
`SystemTime` is embedded as a `Nat` timestamp. -/
structure FactorSource where
  kind : FactorSourceKind
  lastUsed : Nat
  id : FactorSourceID
  deriving DecidableEq, Repr

/-- The manual `Ord for FactorSource`: compare `kind`, then `last_used`;
`id` is never compared.  `a ≼ b` iff `cmp a b ≠ Greater`. -/
def FactorSource.le (a b : FactorSource) : Prop :=
  a.kind.rank < b.kind.rank ∨ (a.kind.rank = b.kind.rank ∧ a.lastUsed ≤ b.lastUsed)

instance : DecidableRel FactorSource.le := fun a b => by
  unfold FactorSource.le; infer_instance

/-- `pub struct FactorInstance { pub factor_source_id: FactorSourceID }`. -/
structure FactorInstance where
  factorSourceId : FactorSourceID
  deriving DecidableEq, Repr

/-- `pub struct Signature;` — fieldless. -/
structure Signature where
  deriving DecidableEq, Repr

/-- `struct SignatureByFactor { signature, factor }` (sign_with_factors.rs). -/
structure SignatureByFactor where
  signature : Signature
  factor : FactorInstance
  deriving DecidableEq, Repr

/-- `FactorSourceReferencing for SignatureByFactor`. -/
def SignatureByFactor.factorSourceId (s : SignatureByFactor) : FactorSourceID :=
  s.factor.factorSourceId

/-- `enum AccountAddressOrIdentityAddress` over the fieldless address structs. -/
inductive AccountAddressOrIdentityAddress where
  | accountAddress
  | identityAddress
  deriving DecidableEq, Repr

/-- `pub struct OwnedFactorInstance { factor_instance, owner }`. -/
structure OwnedFactorInstance where
  factorInstance : FactorInstance
  owner : AccountAddressOrIdentityAddress
  deriving DecidableEq, Repr

/-- `pub struct IntentHash { hash: Hash }` with `Hash` a fieldless struct. -/
structure IntentHash where
  deriving DecidableEq, Repr

/-- `pub struct SignatureByOwnedFactorForPayload { intent_hash, owned_factor_instance, signature }`. -/
structure SignatureByOwnedFactorForPayload where
  intentHash : IntentHash
  ownedFactorInstance : OwnedFactorInstance
  signature : Signature
  deriving DecidableEq, Repr

instance : Subsingleton FactorSourceID := ⟨fun ⟨⟩ ⟨⟩ => rfl⟩
instance : Subsingleton FactorInstance := ⟨fun ⟨⟨⟩⟩ ⟨⟨⟩⟩ => rfl⟩
instance : Subsingleton Signature := ⟨fun ⟨⟩ ⟨⟩ => rfl⟩
instance : Subsingleton SignatureByFactor := ⟨fun ⟨⟨⟩, ⟨⟨⟩⟩⟩ ⟨⟨⟩, ⟨⟨⟩⟩⟩ => rfl⟩
instance : Subsingleton IntentHash := ⟨fun ⟨⟩ ⟨⟩ => rfl⟩

/-- `IndexSet::insert`: no-op when present, append at the end otherwise. -/
def indexSetInsert {α : Type} [DecidableEq α] (xs : List α) (x : α) : List α :=
  if x ∈ xs then xs else xs ++ [x]

/-- `collect::<IndexSet<_>>()` from an iterator: left fold of inserts. -/
def indexSetOfList {α : Type} [DecidableEq α] (l : List α) : List α :=
  l.foldl indexSetInsert []

/-- `IndexSet::union(&self, other)`: the elements of `self` followed by the
elements of `other` not already in `self`, in order. -/
def indexSetUnion {α : Type} [DecidableEq α] (a b : List α) : List α :=
  a ++ b.filter (fun x => decide (x ∉ a))

/-- Two's-complement wrap of an integer into the `i8` range `[-128, 127]`. -/
def wrap8 (x : Int) : Int :=
  (x + 128) % 256 - 128

/-- `struct PetitionWithFactorsInput { factors: IndexSet<FactorInstance>, required: i8 }`. -/
structure PetitionWithFactorsInput where
  factors : List FactorInstance
  required : Int
  deriving DecidableEq, Repr

/-- `struct PetitionWithFactorsState { signed, skipped }`; the snapshot type
carries the same two sets, so the state doubles as its own snapshot. -/
structure PetitionWithFactorsState where
  signed : List SignatureByFactor
  skipped : List FactorInstance
  deriving DecidableEq, Repr

/-- `struct PetitionWithFactors { input, state }`. -/
structure PetitionWithFactors where
  input : PetitionWithFactorsInput
  state : PetitionWithFactorsState
  deriving DecidableEq, Repr

/-- `PetitionWithFactorsStateSnapshot::signed_count`: `self.signed.len() as i8`. -/
def PetitionWithFactorsState.signedCount (s : PetitionWithFactorsState) : Int :=
  wrap8 s.signed.length

/-- `PetitionWithFactorsStateSnapshot::skipped_count`: `self.skipped.len() as i8`. -/
def PetitionWithFactorsState.skippedCount (s : PetitionWithFactorsState) : Int :=
  wrap8 s.skipped.length

/-- `PetitionWithFactorsStateSnapshot::prompted_count`: `signed_count + skipped_count` in `i8`. -/
def PetitionWithFactorsState.promptedCount (s : PetitionWithFactorsState) : Int :=
  wrap8 (s.signedCount + s.skippedCount)

/-- `PetitionWithFactorsInput::factors_count`: `self.factors.len() as i8`. -/
def PetitionWithFactorsInput.factorsCount (i : PetitionWithFactorsInput) : Int :=
  wrap8 i.factors.length

/-- `PetitionWithFactorsInput::remaining_factors_until_success`:
`self.required - snapshot.signed_count()` in `i8`. -/
def PetitionWithFactorsInput.remainingFactorsUntilSuccess
    (i : PetitionWithFactorsInput) (s : PetitionWithFactorsState) : Int :=
  wrap8 (i.required - s.signedCount)

/-- `PetitionWithFactorsInput::is_fulfilled_by`: `remaining ≤ 0`. -/
def PetitionWithFactorsInput.isFulfilledBy
    (i : PetitionWithFactorsInput) (s : PetitionWithFactorsState) : Bool :=
  decide (i.remainingFactorsUntilSuccess s ≤ 0)

/-- `PetitionWithFactorsInput::factors_left_to_prompt`:
`factors_count - prompted_count` in `i8`. -/
def PetitionWithFactorsInput.factorsLeftToPrompt
    (i : PetitionWithFactorsInput) (s : PetitionWithFactorsState) : Int :=
  wrap8 (i.factorsCount - s.promptedCount)

/-- `PetitionWithFactorsInput::is_failure_with`: `factors_left_to_prompt < required`. -/
def PetitionWithFactorsInput.isFailureWith
    (i : PetitionWithFactorsInput) (s : PetitionWithFactorsState) : Bool :=
  decide (i.factorsLeftToPrompt s < i.required)

/-- `PetitionWithFactorsInput::reference_factor_source`: first factor whose
`factor_source_id` equals the source's `id`. -/
def PetitionWithFactorsInput.referenceFactorSource
    (i : PetitionWithFactorsInput) (fs : FactorSource) : Option FactorInstance :=
  i.factors.find? (fun f => f.factorSourceId == fs.id)

/-- `PetitionWithFactorsInput::references_factor_source`. -/
def PetitionWithFactorsInput.referencesFactorSource
    (i : PetitionWithFactorsInput) (fs : FactorSource) : Bool :=
  (i.referenceFactorSource fs).isSome

/-- `enum PetitionForFactorListStatusFinished`. -/
inductive PetitionForFactorListStatusFinished where
  | success
  | fail
  deriving DecidableEq, Repr

/-- `enum PetitionForFactorListStatus`. -/
inductive PetitionForFactorListStatus where
  | inProgress
  | finished (f : PetitionForFactorListStatusFinished)
  deriving DecidableEq, Repr

/-- `PetitionWithFactors::state_snapshot` (clone of the state). -/
def PetitionWithFactors.stateSnapshot (p : PetitionWithFactors) : PetitionWithFactorsState :=
  p.state

/-- `PetitionWithFactors::is_finished_successfully`. -/
def PetitionWithFactors.isFinishedSuccessfully (p : PetitionWithFactors) : Bool :=
  p.input.isFulfilledBy p.stateSnapshot

/-- `PetitionWithFactors::is_finished_with_fail`. -/
def PetitionWithFactors.isFinishedWithFail (p : PetitionWithFactors) : Bool :=
  p.input.isFailureWith p.stateSnapshot

/-- `PetitionWithFactors::finished_with`. -/
def PetitionWithFactors.finishedWith (p : PetitionWithFactors) :
    Option PetitionForFactorListStatusFinished :=
  if p.isFinishedSuccessfully then some .success
  else if p.isFinishedWithFail then some .fail
  else none

/-- `PetitionWithFactors::status`. -/
def PetitionWithFactors.status (p : PetitionWithFactors) : PetitionForFactorListStatus :=
  match p.finishedWith with
  | some f => .finished f
  | none => .inProgress

/-- `PetitionWithFactors::new_not_used()`: empty factors, `required = 0`,
fresh (empty) state. -/
def PetitionWithFactors.newNotUsed : PetitionWithFactors :=
  { input := { factors := [], required := 0 }, state := { signed := [], skipped := [] } }

/-- `PetitionWithFactors::new_threshold(factors, threshold)`: the factors are
collected into an `IndexSet` and `required` is the threshold. -/
def PetitionWithFactors.newThreshold (factors : List FactorInstance) (threshold : Int) :
    PetitionWithFactors :=
  { input := { factors := indexSetOfList factors, required := threshold },
    state := { signed := [], skipped := [] } }

/-- `PetitionWithFactors::new_override(factors)`: `required = 1`. -/
def PetitionWithFactors.newOverride (factors : List FactorInstance) : PetitionWithFactors :=
  PetitionWithFactors.newThreshold factors 1

/-- `PetitionWithFactors::new_unsecurified(factor)`: 1-of-1 threshold. -/
def PetitionWithFactors.newUnsecurified (factor : FactorInstance) : PetitionWithFactors :=
  PetitionWithFactors.newThreshold [factor] 1

/-- `PetitionWithFactors::references_factor_source`. -/
def PetitionWithFactors.referencesFactorSource
    (p : PetitionWithFactors) (fs : FactorSource) : Bool :=
  p.input.referencesFactorSource fs

/-- `PetitionWithFactorsState::references_factor_source_by_id`: true when the
id is referenced by a signed or by a skipped factor. -/
def PetitionWithFactorsState.referencesFactorSourceById
    (s : PetitionWithFactorsState) (id : FactorSourceID) : Bool :=
  s.signed.any (fun sf => sf.factorSourceId == id)
    || s.skipped.any (fun f => f.factorSourceId == id)

/-- `PetitionWithFactorsState::skipped(factor_instance)`, including the
`assert_not_referencing_factor_source` guard exactly as written in the source:
`assert!(self.references_factor_source_by_id(id), "...")`, i.e. the call
panics (`none`) unless the id is ALREADY referenced by the state, and only
then inserts the instance into the skipped set. -/
def PetitionWithFactorsState.stateSkipped
    (s : PetitionWithFactorsState) (fi : FactorInstance) : Option PetitionWithFactorsState :=
  if s.referencesFactorSourceById fi.factorSourceId then
    some { s with skipped := indexSetInsert s.skipped fi }
  else
    none

/-- `PetitionWithFactors::skipped(factor_source)`: `expect_reference_to_factor_source`
(panics when the source is not among the factors) then the state mutation. -/
def PetitionWithFactors.skippedMut
    (p : PetitionWithFactors) (fs : FactorSource) : Option PetitionWithFactors :=
  match p.input.referenceFactorSource fs with
  | none => none
  | some fi => (p.state.stateSkipped fi).map (fun st => { p with state := st })

/-- Modelled from the spec: `record_signature(FactorInstance, Signature)`
inserts into the `signed` set.  The recording call-site is absent from the
source; only the underlying `PetitionWithFactorsStateFactors::insert`
(`IndexSet::insert` on the signed set) exists, and this definition is exactly
that insert. -/
def PetitionWithFactors.recordSignature
    (p : PetitionWithFactors) (sig : SignatureByFactor) : PetitionWithFactors :=
  { p with state := { p.state with signed := indexSetInsert p.state.signed sig } }

/-- `struct TransactionIndex { index: usize, intent_hash }`. -/
structure TransactionIndex where
  index : Nat
  intentHash : IntentHash
  deriving DecidableEq, Repr

/-- `struct PetitionOfTransactionByEntity { entity, transaction_index,
threshold_factors, override_factors }` (RefCells erased). -/
structure PetitionOfTransactionByEntity where
  entity : AccountAddressOrIdentityAddress
  transactionIndex : TransactionIndex
  thresholdFactors : PetitionWithFactors
  overrideFactors : PetitionWithFactors
  deriving DecidableEq, Repr

/-- `enum Petition { Threshold, Override }`. -/
inductive Petition where
  | threshold
  | override
  deriving DecidableEq, Repr

/-- `PetitionOfTransactionByEntity::petition`: threshold list first, then
override list, else `None`. -/
def PetitionOfTransactionByEntity.petitionLookup
    (e : PetitionOfTransactionByEntity) (fs : FactorSource) : Option Petition :=
  if e.thresholdFactors.referencesFactorSource fs then some .threshold
  else if e.overrideFactors.referencesFactorSource fs then some .override
  else none

/-- `PetitionOfTransactionByEntity::status`: the match over the two
sub-statuses, with the arms in source order. -/
def combineStatus (t o : PetitionForFactorListStatus) : PetitionForFactorListStatus :=
  match t, o with
  | .inProgress, .inProgress => .inProgress
  | .finished .fail, .inProgress => .inProgress
  | .inProgress, .finished .fail => .inProgress
  | .finished .fail, .finished .fail => .finished .fail
  | .finished .success, _ => .finished .success
  | _, .finished .success => .finished .success

/-- `PetitionOfTransactionByEntity::status`. -/
def PetitionOfTransactionByEntity.status
    (e : PetitionOfTransactionByEntity) : PetitionForFactorListStatus :=
  combineStatus e.thresholdFactors.status e.overrideFactors.status

/-- `PetitionOfTransactionByEntity::skipped(factor_source)`: look up which
list references the source (`petition`), return unchanged when neither does,
otherwise forward the skip to that list; panics (`none`) propagate. -/
def PetitionOfTransactionByEntity.skippedMut
    (e : PetitionOfTransactionByEntity) (fs : FactorSource) :
    Option PetitionOfTransactionByEntity :=
  match e.petitionLookup fs with
  | none => some e
  | some .threshold =>
      (e.thresholdFactors.skippedMut fs).map (fun t => { e with thresholdFactors := t })
  | some .override =>
      (e.overrideFactors.skippedMut fs).map (fun o => { e with overrideFactors := o })

/-- `PetitionOfTransactionByEntity::status_if_skipped_factor_source`: clone
`self`, run `skipped` on the clone and read the clone's combined status.  A
panic in the simulated skip propagates. -/
def PetitionOfTransactionByEntity.statusIfSkippedFactorSource
    (e : PetitionOfTransactionByEntity) (fs : FactorSource) :
    Option PetitionForFactorListStatus :=
  (e.skippedMut fs).map (fun sim => sim.status)

/-- The full effect of a `status_if_skipped_factor_source` call on `&self`:
the returned status paired with the value of `self` after the call.  The
source method mutates only its local clone and never writes through `self`,
so the second component is `self` unchanged. -/
def PetitionOfTransactionByEntity.statusIfSkippedRun
    (e : PetitionOfTransactionByEntity) (fs : FactorSource) :
    Option PetitionForFactorListStatus × PetitionOfTransactionByEntity :=
  (e.statusIfSkippedFactorSource fs, e)

/-- `PetitionWithFactors::factor_instances`: clone of the input's factors. -/
def PetitionWithFactors.factorInstances (p : PetitionWithFactors) : List FactorInstance :=
  p.input.factors

/-- `PetitionOfTransactionByEntity::all_factor_instances`:
`override.factor_instances().union(&threshold.factor_instances())`. -/
def PetitionOfTransactionByEntity.allFactorInstances
    (e : PetitionOfTransactionByEntity) : List FactorInstance :=
  indexSetUnion e.overrideFactors.factorInstances e.thresholdFactors.factorInstances

/-- `pub struct InvalidTransactionIfSkipped { intent_hash, entities_which_would_fail_auth }`. -/
structure InvalidTransactionIfSkipped where
  intentHash : IntentHash
  entitiesWhichWouldFailAuth : List AccountAddressOrIdentityAddress
  deriving DecidableEq, Repr

/-- Modelled from the spec: the per-entity helper
`PetitionOfTransactionByEntity::invalid_transactions_if_skipped` is called by
`PetitionOfTransaction::invalid_transactions_if_skipped` but is absent from
the source.  Per spec §4.3 the report is computed by asking
`status_if_skipped`, returning a record naming this entity when the entity
would transition to `Fail`.  A panic in the simulation propagates. -/
def PetitionOfTransactionByEntity.invalidTransactionsIfSkipped
    (e : PetitionOfTransactionByEntity) (fs : FactorSource) :
    Option (List InvalidTransactionIfSkipped) :=
  match e.statusIfSkippedFactorSource fs with
  | none => none
  | some (.finished .fail) =>
      some [{ intentHash := e.transactionIndex.intentHash,
              entitiesWhichWouldFailAuth := [e.entity] }]
  | some _ => some []

/-- `struct PetitionOfTransaction { intent_hash, for_entities }`. -/
structure PetitionOfTransaction where
  intentHash : IntentHash
  forEntities : List PetitionOfTransactionByEntity
  deriving DecidableEq, Repr

/-- `PetitionOfTransaction::all_factor_instances`: flat-map of the entity
petitions' instances collected into an `IndexSet<OwnedFactorInstance>`.  The
source line collects `FactorInstance` items into a set of
`OwnedFactorInstance`, which only types by attaching each instance's owning
entity address, so each instance is paired with its petition's `entity`. -/
def PetitionOfTransaction.allFactorInstances
    (t : PetitionOfTransaction) : List OwnedFactorInstance :=
  indexSetOfList
    (t.forEntities.flatMap (fun (e : PetitionOfTransactionByEntity) =>
      e.allFactorInstances.map (fun fi => { factorInstance := fi, owner := e.entity })))

/-- Sequence a panic-propagating computation over a list: `none` as soon as
any element panics, otherwise the list of results. -/
def traverseOption {α β : Type} (f : α → Option β) : List α → Option (List β)
  | [] => some []
  | x :: t =>
    match f x, traverseOption f t with
    | some y, some ys => some (y :: ys)
    | _, _ => none

/-- `PetitionOfTransaction::invalid_transactions_if_skipped`: flat-map over
the entity petitions, collected into an `IndexSet`; panics propagate. -/
def PetitionOfTransaction.invalidTransactionsIfSkipped
    (t : PetitionOfTransaction) (fs : FactorSource) :
    Option (List InvalidTransactionIfSkipped) :=
  (traverseOption (fun (e : PetitionOfTransactionByEntity) =>
      e.invalidTransactionsIfSkipped fs) t.forEntities).map
    (fun ls => indexSetOfList ls.flatten)

/-- `pub struct SigningInputForFactorSource` (signatures_builder.rs). -/
structure SigningInputForFactorSource where
  factorSource : FactorSource
  intentHash : IntentHash
  factorInstances : List OwnedFactorInstance
  entitiesWhichWouldFailAuth : List AccountAddressOrIdentityAddress
  deriving DecidableEq, Repr

/-- `pub struct BatchTransactionSigningInputForFactorSource`; the
`IndexMap<IntentHash, SigningInputForFactorSource>` is an association list in
insertion order. -/
structure BatchTransactionSigningInputForFactorSource where
  factorSource : FactorSource
  inputForEachTransaction : List (IntentHash × SigningInputForFactorSource)
  deriving DecidableEq, Repr

/-- `HashMap`/`IndexMap` lookup on an association list: first matching key. -/
def assocGet {κ β : Type} [DecidableEq κ] (m : List (κ × β)) (k : κ) : Option β :=
  (m.find? (fun p => p.1 == k)).map (fun p => p.2)

/-- `struct Petitions { factor_to_txid, txid_to_petition }`. -/
structure Petitions where
  factorToTxid : List (FactorSourceID × List IntentHash)
  txidToPetition : List (IntentHash × PetitionOfTransaction)
  deriving DecidableEq, Repr

/-- `Petitions::input_for_factor_source`: unwrap the source's transaction
list (panic when absent), then for each transaction id unwrap its petition and
assemble `SigningInputForFactorSource` from `all_factor_instances` and the
flattened entities of `invalid_transactions_if_skipped`. -/
def Petitions.inputForFactorSource (ps : Petitions) (fs : FactorSource) :
    Option BatchTransactionSigningInputForFactorSource := do
  let intentHashes ← assocGet ps.factorToTxid fs.id
  let inputs ← traverseOption (fun txid => do
      let petition ← assocGet ps.txidToPetition txid
      let instances := petition.allFactorInstances
      let invalids ← petition.invalidTransactionsIfSkipped fs
      let entitiesWhichWouldFailAuth :=
        invalids.flatMap (fun x => x.entitiesWhichWouldFailAuth)
      pure (txid,
        SigningInputForFactorSource.mk fs txid instances entitiesWhichWouldFailAuth))
    intentHashes
  pure { factorSource := fs, inputForEachTransaction := inputs }

/-- `FactorSource::sign`: always returns the unit `Signature`. -/
def FactorSource.signOne (_fs : FactorSource) (_ih : IntentHash)
    (_fi : FactorInstance) : Signature :=
  {}

/-- `FactorSource::batch_sign`: map each requested owned instance to a
`SignatureByOwnedFactorForPayload` carrying the given intent hash, the owned
instance and the signature, collected into an `IndexSet`. -/
def FactorSource.batchSign (fs : FactorSource) (ih : IntentHash)
    (ois : List OwnedFactorInstance) : List SignatureByOwnedFactorForPayload :=
  indexSetOfList (ois.map (fun oi =>
    { intentHash := ih, ownedFactorInstance := oi,
      signature := fs.signOne ih oi.factorInstance }))

/-- `≤` on kinds by the derived `Ord` (declaration order). -/
def FactorSourceKind.le (a b : FactorSourceKind) : Prop :=
  a.rank ≤ b.rank

instance : DecidableRel FactorSourceKind.le := fun a b => by
  unfold FactorSourceKind.le; infer_instance

/-- The `factors_of_kind` map built at the end of `SignaturesBuilder::new`,
as a function of the iteration order of the `used_factor_sources` hash set.
The source groups the used sources by kind
(`into_grouping_map_by(kind).collect::<IndexSet<_>>()`, so each kind maps to
its sources in encounter order, i.e. the sub-list of `used` of that kind),
sorts every group with the stable `itertools::sorted` under the manual
`Ord for FactorSource`, and finally `sort_keys()` orders the kinds by the
derived `Ord of FactorSourceKind`.  Both sorts are embedded as the stable
`List.insertionSort`. -/
def factorsOfKind (used : List FactorSource) :
    List (FactorSourceKind × List FactorSource) :=
  (List.insertionSort FactorSourceKind.le ((used.map (fun f => f.kind)).dedup)).map
    (fun k => (k, List.insertionSort FactorSource.le (used.filter (fun f => f.kind == k))))

/-! ## Support lemmas -/

theorem mem_of_subsingleton {α : Type} [Subsingleton α] {x : α} {l : List α}
    (h : l ≠ []) : x ∈ l := by
  cases l with
  | nil => exact absurd rfl h
  | cons a t => have : x = a := Subsingleton.elim x a; simp [this]

theorem length_le_one_of_nodup {α : Type} [Subsingleton α] {l : List α}
    (h : l.Nodup) : l.length ≤ 1 := by
  cases l with
  | nil => simp
  | cons a t =>
    cases t with
    | nil => simp
    | cons b u =>
      have hab : a = b := Subsingleton.elim a b
      simp [hab] at h

theorem wrap8_eq_self {x : Int} (h1 : -128 ≤ x) (h2 : x ≤ 127) : wrap8 x = x := by
  unfold wrap8
  have h3 : 0 ≤ x + 128 := by omega
  have h4 : x + 128 < 256 := by omega
  rw [Int.emod_eq_of_lt h3 h4]
  omega

theorem wrap8_neg129 : wrap8 (-129) = 127 := by decide

/-- `IndexSet` representation invariant plus the `i8` range of `required`. -/
def ValidPetition (p : PetitionWithFactors) : Prop :=
  p.input.factors.Nodup ∧ p.state.signed.Nodup ∧ p.state.skipped.Nodup ∧
    -128 ≤ p.input.required ∧ p.input.required ≤ 127

instance : DecidablePred ValidPetition := fun p => by
  unfold ValidPetition; infer_instance

theorem signed_length_le_one {p : PetitionWithFactors} (h : ValidPetition p) :
    p.state.signed.length ≤ 1 :=
  length_le_one_of_nodup h.2.1

theorem skipped_length_le_one {p : PetitionWithFactors} (h : ValidPetition p) :
    p.state.skipped.length ≤ 1 :=
  length_le_one_of_nodup h.2.2.1

theorem factors_length_le_one {p : PetitionWithFactors} (h : ValidPetition p) :
    p.input.factors.length ≤ 1 :=
  length_le_one_of_nodup h.1

/-- On a valid petition, the success test reduces to the single wrapped
subtraction `wrap8 (required - signed.length) ≤ 0`. -/
theorem isFinishedSuccessfully_iff {p : PetitionWithFactors} (h : ValidPetition p) :
    p.isFinishedSuccessfully = true ↔
      wrap8 (p.input.required - p.state.signed.length) ≤ 0 := by
  have hg := signed_length_le_one h
  have hG : wrap8 (p.state.signed.length : Int) = (p.state.signed.length : Int) :=
    wrap8_eq_self (by omega) (by omega)
  simp only [PetitionWithFactors.isFinishedSuccessfully, PetitionWithFactors.stateSnapshot,
    PetitionWithFactorsInput.isFulfilledBy, PetitionWithFactorsInput.remainingFactorsUntilSuccess,
    PetitionWithFactorsState.signedCount, hG, decide_eq_true_eq]

/-- On a valid petition, the failure test reduces to the plain inequality
`factors.length - signed.length - skipped.length < required`: every wrapped
intermediate stays inside the `i8` range. -/
theorem isFinishedWithFail_iff {p : PetitionWithFactors} (h : ValidPetition p) :
    p.isFinishedWithFail = true ↔
      (p.input.factors.length : Int) - p.state.signed.length - p.state.skipped.length
        < p.input.required := by
  have hg := signed_length_le_one h
  have hk := skipped_length_le_one h
  have hf := factors_length_le_one h
  have hG : wrap8 (p.state.signed.length : Int) = (p.state.signed.length : Int) :=
    wrap8_eq_self (by omega) (by omega)
  have hK : wrap8 (p.state.skipped.length : Int) = (p.state.skipped.length : Int) :=
    wrap8_eq_self (by omega) (by omega)
  have hF : wrap8 (p.input.factors.length : Int) = (p.input.factors.length : Int) :=
    wrap8_eq_self (by omega) (by omega)
  have hP : wrap8 ((p.state.signed.length : Int) + (p.state.skipped.length : Int))
      = (p.state.signed.length : Int) + (p.state.skipped.length : Int) :=
    wrap8_eq_self (by omega) (by omega)
  have hL : wrap8 ((p.input.factors.length : Int)
        - ((p.state.signed.length : Int) + (p.state.skipped.length : Int)))
      = (p.input.factors.length : Int)
        - ((p.state.signed.length : Int) + (p.state.skipped.length : Int)) :=
    wrap8_eq_self (by omega) (by omega)
  simp only [PetitionWithFactors.isFinishedWithFail, PetitionWithFactors.stateSnapshot,
    PetitionWithFactorsInput.isFailureWith, PetitionWithFactorsInput.factorsLeftToPrompt,
    PetitionWithFactorsInput.factorsCount, PetitionWithFactorsState.promptedCount,
    PetitionWithFactorsState.signedCount, PetitionWithFactorsState.skippedCount,
    hG, hK, hF, hP, hL, decide_eq_true_eq]
  omega

theorem status_eq_fail_iff {p : PetitionWithFactors} :
    p.status = .finished .fail ↔
      p.isFinishedSuccessfully = false ∧ p.isFinishedWithFail = true := by
  unfold PetitionWithFactors.status PetitionWithFactors.finishedWith
  rcases hs : p.isFinishedSuccessfully <;> rcases hf : p.isFinishedWithFail <;> simp

theorem status_eq_success_iff {p : PetitionWithFactors} :
    p.status = .finished .success ↔ p.isFinishedSuccessfully = true := by
  unfold PetitionWithFactors.status PetitionWithFactors.finishedWith
  rcases hs : p.isFinishedSuccessfully <;> rcases hf : p.isFinishedWithFail <;> simp

theorem status_eq_inProgress_iff {p : PetitionWithFactors} :
    p.status = .inProgress ↔
      p.isFinishedSuccessfully = false ∧ p.isFinishedWithFail = false := by
  unfold PetitionWithFactors.status PetitionWithFactors.finishedWith
  rcases hs : p.isFinishedSuccessfully <;> rcases hf : p.isFinishedWithFail <;> simp

theorem referencesById_iff (s : PetitionWithFactorsState) (id : FactorSourceID) :
    s.referencesFactorSourceById id = true ↔ (s.signed ≠ [] ∨ s.skipped ≠ []) := by
  unfold PetitionWithFactorsState.referencesFactorSourceById
  simp only [Bool.or_eq_true, List.any_eq_true, beq_iff_eq]
  constructor
  · rintro (⟨x, hx, _⟩ | ⟨x, hx, _⟩)
    · exact Or.inl (List.ne_nil_of_mem hx)
    · exact Or.inr (List.ne_nil_of_mem hx)
  · rintro (h | h)
    · obtain ⟨x, hx⟩ := List.exists_mem_of_ne_nil _ h
      exact Or.inl ⟨x, hx, trivial⟩
    · obtain ⟨x, hx⟩ := List.exists_mem_of_ne_nil _ h
      exact Or.inr ⟨x, hx, trivial⟩

theorem indexSetInsert_subsingleton {α : Type} [Subsingleton α] [DecidableEq α]
    (l : List α) (x : α) :
    indexSetInsert l x = if l = [] then [x] else l := by
  unfold indexSetInsert
  cases l with
  | nil => simp
  | cons a t => simp [mem_of_subsingleton (List.cons_ne_nil a t)]

/-- Inversion of a successful `PetitionWithFactors::skipped` call: the
factors are non-empty, the state already references the (unit-typed) factor
source, the input and the signed set are untouched and the skipped set gains
the factor instance (a no-op when already non-empty). -/
theorem skippedMut_inv {p p' : PetitionWithFactors} {fs : FactorSource}
    (h : p.skippedMut fs = some p') :
    p.input.factors ≠ [] ∧ (p.state.signed ≠ [] ∨ p.state.skipped ≠ []) ∧
    p'.input = p.input ∧ p'.state.signed = p.state.signed ∧
    p'.state.skipped =
      (if p.state.skipped = [] then [FactorInstance.mk {}] else p.state.skipped) := by
  unfold PetitionWithFactors.skippedMut at h
  cases hfind : p.input.referenceFactorSource fs with
  | none => rw [hfind] at h; exact absurd h (by simp)
  | some fi =>
    rw [hfind] at h
    dsimp only at h
    unfold PetitionWithFactorsState.stateSkipped at h
    by_cases href : p.state.referencesFactorSourceById fi.factorSourceId = true
    · rw [if_pos href] at h
      rw [Option.map_some'] at h
      replace h := Option.some.inj h
      have hmem : fi ∈ p.input.factors :=
        List.mem_of_find?_eq_some hfind
      have h3 : indexSetInsert p.state.skipped fi =
          if p.state.skipped = [] then [FactorInstance.mk {}] else p.state.skipped := by
        rw [indexSetInsert_subsingleton]
      refine ⟨List.ne_nil_of_mem hmem, (referencesById_iff _ _).mp href, ?_, ?_, ?_⟩ <;>
        rw [← h]
      exact h3
    · rw [if_neg href] at h
      exact absurd h (by simp)

/-- `status` depends only on `required` and the three list lengths. -/
theorem status_congr {p q : PetitionWithFactors}
    (hr : q.input.required = p.input.required)
    (hf : q.input.factors.length = p.input.factors.length)
    (hg : q.state.signed.length = p.state.signed.length)
    (hk : q.state.skipped.length = p.state.skipped.length) :
    q.status = p.status := by
  unfold PetitionWithFactors.status PetitionWithFactors.finishedWith
    PetitionWithFactors.isFinishedSuccessfully PetitionWithFactors.isFinishedWithFail
    PetitionWithFactors.stateSnapshot PetitionWithFactorsInput.isFulfilledBy
    PetitionWithFactorsInput.isFailureWith PetitionWithFactorsInput.remainingFactorsUntilSuccess
    PetitionWithFactorsInput.factorsLeftToPrompt PetitionWithFactorsInput.factorsCount
    PetitionWithFactorsState.promptedCount PetitionWithFactorsState.signedCount
    PetitionWithFactorsState.skippedCount
  rw [hr, hf, hg, hk]

/-- Precondition of the spec's `record_signature`/`record_skip` mutations:
the factor source appears exactly once among the factors and has not yet been
recorded on either side. -/
def RecordPrecondition (p : PetitionWithFactors) (id : FactorSourceID) : Prop :=
  p.input.factors.countP (fun f => f.factorSourceId == id) = 1 ∧
    p.state.referencesFactorSourceById id = false

instance (p : PetitionWithFactors) (id : FactorSourceID) :
    Decidable (RecordPrecondition p id) := by
  unfold RecordPrecondition; infer_instance

/-! ## Shared concrete inputs for witnesses -/

def fi0 : FactorInstance := { factorSourceId := {} }

def fs0 : FactorSource := { kind := .device, lastUsed := 0, id := {} }

def sig0 : SignatureByFactor := { signature := {}, factor := fi0 }

/-! ## Claims -/

/-- C1: the claim says the status function returns `Success` iff
`signed_count ≥ required` and `required > 0`, so a not-used list
(`factors = ∅`, `required = 0`, nothing signed or skipped) must be `Fail`.
The code evaluated at exactly that failing input: `is_fulfilled_by` has no
`required > 0` guard, so `new_not_used()` reports `Success` with
`required = 0` and empty signed/skipped sets, contradicting the claim (and
making the companion-list combination of §4.2 vacuously successful). -/
theorem c1_notUsed_status_is_success :
    PetitionWithFactors.newNotUsed.status = .finished .success ∧
    PetitionWithFactors.newNotUsed.input.required = 0 ∧
    PetitionWithFactors.newNotUsed.state.signed = [] ∧
    PetitionWithFactors.newNotUsed.state.skipped = [] := by
  decide

/-- C2: on every factor-list petition (valid `IndexSet` states, `required`
in the `i8` range) whose success condition does not hold, the status is
`Fail` exactly when `remaining_to_prompt + signed_count < required`, with
`remaining_to_prompt = |factors| − signed_count − skipped_count` computed in
plain integers as the claim states. -/
theorem c2_fail_iff_cannot_reach_required (p : PetitionWithFactors)
    (hv : ValidPetition p) (hns : p.isFinishedSuccessfully = false) :
    p.status = .finished .fail ↔
      ((p.input.factors.length : Int) - p.state.signed.length - p.state.skipped.length)
        + p.state.signed.length < p.input.required := by
  have hg := signed_length_le_one hv
  have hk := skipped_length_le_one hv
  have hf := factors_length_le_one hv
  have hr1 := hv.2.2.2.1
  have hr2 := hv.2.2.2.2
  have hnot : ¬ (wrap8 (p.input.required - p.state.signed.length) ≤ 0) := by
    intro hc
    have := (isFinishedSuccessfully_iff hv).mpr hc
    rw [hns] at this
    exact Bool.noConfusion this
  rw [status_eq_fail_iff, isFinishedWithFail_iff hv]
  simp only [hns, true_and]
  by_cases hcase : p.input.required - p.state.signed.length = -129
  · constructor <;> intro h' <;> omega
  · have hin : wrap8 (p.input.required - p.state.signed.length)
        = p.input.required - p.state.signed.length :=
      wrap8_eq_self (by omega) (by omega)
    rw [hin] at hnot
    omega

theorem c2_witness :
    ValidPetition (PetitionWithFactors.mk ⟨[fi0], 1⟩ ⟨[], []⟩) ∧
    (PetitionWithFactors.mk ⟨[fi0], 1⟩ ⟨[], []⟩).isFinishedSuccessfully = false ∧
    ((PetitionWithFactors.mk ⟨[fi0], 1⟩ ⟨[], []⟩).status = .finished .fail ↔
      (((PetitionWithFactors.mk ⟨[fi0], 1⟩ ⟨[], []⟩).input.factors.length : Int)
          - (PetitionWithFactors.mk ⟨[fi0], 1⟩ ⟨[], []⟩).state.signed.length
          - (PetitionWithFactors.mk ⟨[fi0], 1⟩ ⟨[], []⟩).state.skipped.length)
        + (PetitionWithFactors.mk ⟨[fi0], 1⟩ ⟨[], []⟩).state.signed.length
        < (PetitionWithFactors.mk ⟨[fi0], 1⟩ ⟨[], []⟩).input.required) :=
  ⟨by decide, by decide,
    c2_fail_iff_cannot_reach_required _ (by decide) (by decide)⟩

def c3Pet : PetitionWithFactors :=
  { input := { factors := [fi0], required := -128 },
    state := { signed := [], skipped := [] } }

/-- C3 counterexample: a threshold petition with `required = -128` (reachable
as `matrix.threshold as i8` of a `u8` threshold of 128) over one factor with a
fresh state.  It satisfies the record precondition and its status is
`Success` (`wrap8 (-128 - 0) = -128 ≤ 0`), but recording the signature makes
the `i8` subtraction `required - signed_count` wrap (`-128 - 1 ↦ 127`), and
the status reverts from `Success` to `InProgress`, contradicting the claim
that a finished status never changes. -/
theorem c3_counterexample :
    ValidPetition c3Pet ∧ RecordPrecondition c3Pet sig0.factorSourceId ∧
    c3Pet.status = .finished .success ∧
    (c3Pet.recordSignature sig0).status = .inProgress := by
  decide

/-- C3, skip half: a successful `record_skip` (the `PetitionWithFactors::skipped`
code path) keeps the signed set, never shrinks the skipped set, and preserves
any finished status. -/
def SkipPreservesFinished (p : PetitionWithFactors) : Prop :=
  ∀ fs p', p.skippedMut fs = some p' →
    p'.state.signed = p.state.signed ∧
    p.state.skipped.length ≤ p'.state.skipped.length ∧
    ∀ st, p.status = .finished st → p'.status = .finished st

/-- C3, signature half (with the proviso the counterexample forces): a
`record_signature` whose precondition holds keeps the skipped set, never
shrinks the signed set, and — provided `required > -128`, so that the `i8`
subtraction `required - signed_count` cannot wrap — preserves any finished
status. -/
def SignPreservesFinished (p : PetitionWithFactors) : Prop :=
  ∀ sig : SignatureByFactor, -128 < p.input.required →
    RecordPrecondition p sig.factorSourceId →
    (p.recordSignature sig).state.skipped = p.state.skipped ∧
    p.state.signed.length ≤ (p.recordSignature sig).state.signed.length ∧
    ∀ st, p.status = .finished st → (p.recordSignature sig).status = .finished st

/-- C3 amended: on every valid factor-list petition, recording a signature or
a skip never decreases `signed_count` or `skipped_count`, and a finished
status (`Success` or `Fail`) never changes under any further
precondition-respecting `record_signature` or successful `record_skip` call —
except that the `record_signature` preservation needs `required > -128`,
the proviso forced by the `i8`-wrap counterexample. -/
theorem c3_finished_status_stable (p : PetitionWithFactors) (hv : ValidPetition p) :
    SkipPreservesFinished p ∧ SignPreservesFinished p := by
  have hg1 := signed_length_le_one hv
  have hk1 := skipped_length_le_one hv
  have hf1 := factors_length_le_one hv
  have hr1 := hv.2.2.2.1
  have hr2 := hv.2.2.2.2
  constructor
  · intro fs p' h
    obtain ⟨hfac, href, hinp, hsig, hskip⟩ := skippedMut_inv h
    by_cases hk0 : p.state.skipped = []
    · rw [if_pos hk0] at hskip
      have hsigne : p.state.signed ≠ [] := by
        rcases href with h' | h'
        · exact h'
        · exact absurd hk0 h'
      have hv' : ValidPetition p' := by
        refine ⟨?_, ?_, ?_, ?_, ?_⟩
        · rw [hinp]; exact hv.1
        · rw [hsig]; exact hv.2.1
        · rw [hskip]; exact List.nodup_singleton _
        · rw [hinp]; exact hr1
        · rw [hinp]; exact hr2
      refine ⟨hsig, ?_, ?_⟩
      · rw [hskip, hk0]; simp
      · intro st hst
        have hfl : p.input.factors.length = p'.input.factors.length := by rw [hinp]
        have hgl : p.state.signed.length = p'.state.signed.length := by rw [hsig]
        have hrl : p.input.required = p'.input.required := by rw [hinp]
        cases st with
        | success =>
          have hs := (isFinishedSuccessfully_iff hv).mp (status_eq_success_iff.mp hst)
          refine status_eq_success_iff.mpr ((isFinishedSuccessfully_iff hv').mpr ?_)
          rw [← hgl, ← hrl]
          exact hs
        | fail =>
          obtain ⟨hsuccF, hfailT⟩ := status_eq_fail_iff.mp hst
          have hfail := (isFinishedWithFail_iff hv).mp hfailT
          refine status_eq_fail_iff.mpr ⟨?_, ?_⟩
          · rcases hsF : p'.isFinishedSuccessfully with _ | _
            · rfl
            · have := (isFinishedSuccessfully_iff hv').mp hsF
              rw [← hgl, ← hrl] at this
              have := (isFinishedSuccessfully_iff hv).mpr this
              rw [hsuccF] at this
              exact Bool.noConfusion this
          · refine (isFinishedWithFail_iff hv').mpr ?_
            have hkl : p'.state.skipped.length = 1 := by rw [hskip]; rfl
            have hk0l : p.state.skipped.length = 0 := by rw [hk0]; rfl
            rw [← hfl, ← hgl, ← hrl, hkl]
            omega
    · rw [if_neg hk0] at hskip
      have hcongr : p'.status = p.status :=
        status_congr (by rw [hinp]) (by rw [hinp]) (by rw [hsig]) (by rw [hskip])
      refine ⟨hsig, by rw [hskip], ?_⟩
      intro st hst
      rw [hcongr]
      exact hst
  · intro sig hreq hpre
    have hcnt : p.input.factors.countP
        (fun f => f.factorSourceId == sig.factorSourceId) = p.input.factors.length := by
      refine List.countP_eq_length.mpr ?_
      intro a _
      simp
    obtain ⟨hpre1, hpre2⟩ := hpre
    have hflen : p.input.factors.length = 1 := by
      rw [hcnt] at hpre1
      exact hpre1
    have hempty : ¬ (p.state.signed ≠ [] ∨ p.state.skipped ≠ []) := by
      rw [← referencesById_iff p.state sig.factorSourceId]
      simp [hpre2]
    push_neg at hempty
    obtain ⟨hsg, hsk⟩ := hempty
    set q := p.recordSignature sig with hq
    have hqinp : q.input = p.input := rfl
    have hqsk : q.state.skipped = p.state.skipped := rfl
    have hqsg : q.state.signed = [sig] := by
      show indexSetInsert p.state.signed sig = [sig]
      rw [indexSetInsert_subsingleton, if_pos hsg]
    have hv' : ValidPetition q := by
      refine ⟨hv.1, ?_, ?_, hr1, hr2⟩
      · rw [hqsg]; exact List.nodup_singleton _
      · rw [hqsk]; exact hv.2.2.1
    refine ⟨hqsk, ?_, ?_⟩
    · rw [hqsg, hsg]; simp
    · intro st hst
      have hsg0 : p.state.signed.length = 0 := by rw [hsg]; rfl
      have hsk0 : p.state.skipped.length = 0 := by rw [hsk]; rfl
      have hqsg1 : q.state.signed.length = 1 := by rw [hqsg]; rfl
      have hwr : wrap8 (p.input.required - p.state.signed.length) =
          p.input.required - p.state.signed.length :=
        wrap8_eq_self (by omega) (by omega)
      have hwq : wrap8 (q.input.required - q.state.signed.length) =
          q.input.required - q.state.signed.length := by
        rw [hqinp, hqsg1]
        exact wrap8_eq_self (by omega) (by omega)
      cases st with
      | success =>
        have hs := (isFinishedSuccessfully_iff hv).mp (status_eq_success_iff.mp hst)
        rw [hwr] at hs
        refine status_eq_success_iff.mpr ((isFinishedSuccessfully_iff hv').mpr ?_)
        rw [hwq, hqinp, hqsg1]
        omega
      | fail =>
        obtain ⟨hsuccF, hfailT⟩ := status_eq_fail_iff.mp hst
        have hfail := (isFinishedWithFail_iff hv).mp hfailT
        have hnot : ¬ (wrap8 (p.input.required - p.state.signed.length) ≤ 0) := by
          intro hc
          have := (isFinishedSuccessfully_iff hv).mpr hc
          rw [hsuccF] at this
          exact Bool.noConfusion this
        rw [hwr] at hnot
        refine status_eq_fail_iff.mpr ⟨?_, ?_⟩
        · rcases hsF : q.isFinishedSuccessfully with _ | _
          · rfl
          · have := (isFinishedSuccessfully_iff hv').mp hsF
            rw [hwq, hqinp, hqsg1] at this
            omega
        · refine (isFinishedWithFail_iff hv').mpr ?_
          have hqsk0 : q.state.skipped.length = 0 := by rw [hqsk, hsk]; rfl
          rw [hqinp, hqsg1, hqsk0]
          rw [hsg0, hsk0] at hfail
          omega

theorem c3_witness :
    ValidPetition (PetitionWithFactors.mk ⟨[fi0], 1⟩ ⟨[], [fi0]⟩) ∧
    (SkipPreservesFinished (PetitionWithFactors.mk ⟨[fi0], 1⟩ ⟨[], [fi0]⟩) ∧
      SignPreservesFinished (PetitionWithFactors.mk ⟨[fi0], 1⟩ ⟨[], [fi0]⟩)) :=
  ⟨by decide, c3_finished_status_stable _ (by decide)⟩

/-- C4: the claim says a skip of a factor source that appears exactly once
in the factors and is not yet recorded succeeds without hitting the
programmer-error assertion.  The code evaluated at that input: the assertion
in `assert_not_referencing_factor_source` is inverted — it asserts
`references_factor_source_by_id(id)` instead of its negation — so the very
first `record_skip` on a fresh petition panics (`none`), and nothing is
inserted into the skipped set. -/
theorem c4_first_skip_hits_assertion :
    RecordPrecondition (PetitionWithFactors.mk ⟨[fi0], 1⟩ ⟨[], []⟩) fs0.id ∧
    (PetitionWithFactors.mk ⟨[fi0], 1⟩ ⟨[], []⟩).input.referenceFactorSource fs0
      = some fi0 ∧
    (PetitionWithFactors.mk ⟨[fi0], 1⟩ ⟨[], []⟩).skippedMut fs0 = none := by
  decide

/-- The combined entity status exactly as the claim words it: `Success` when
either list is `Success`, `Fail` when both are `Fail`, `InProgress` in every
other case. -/
def specCombinedStatus (t o : PetitionForFactorListStatus) : PetitionForFactorListStatus :=
  if t = .finished .success ∨ o = .finished .success then .finished .success
  else if t = .finished .fail ∧ o = .finished .fail then .finished .fail
  else .inProgress

theorem combine_eq_spec (t o : PetitionForFactorListStatus) :
    combineStatus t o = specCombinedStatus t o := by
  cases t with
  | inProgress =>
    cases o with
    | inProgress => decide
    | finished g => cases g <;> decide
  | finished f =>
    cases f with
    | success =>
      cases o with
      | inProgress => decide
      | finished g => cases g <;> decide
    | fail =>
      cases o with
      | inProgress => decide
      | finished g => cases g <;> decide

/-- C5: for every entity petition, the combined status of the source's match
over (threshold status, override status) agrees with the claim's table:
`Success` iff either sub-status is `Success`, `Fail` iff both are `Fail`,
`InProgress` in every other case — including one list `Fail` with the other
`InProgress`. -/
theorem c5_entity_status_combination (e : PetitionOfTransactionByEntity) :
    e.status = specCombinedStatus e.thresholdFactors.status e.overrideFactors.status :=
  combine_eq_spec _ _

/-- A factor-list petition references a factor source iff its factor list is
non-empty: the `find?` predicate compares two values of the unit type
`FactorSourceID` and therefore always holds. -/
theorem referencesFactorSource_iff (p : PetitionWithFactors) (fs : FactorSource) :
    p.referencesFactorSource fs = true ↔ p.input.factors ≠ [] := by
  unfold PetitionWithFactors.referencesFactorSource
    PetitionWithFactorsInput.referencesFactorSource
    PetitionWithFactorsInput.referenceFactorSource
  cases hl : p.input.factors with
  | nil => simp
  | cons a t =>
    rw [List.find?_cons_of_pos _ (by simp)]
    simp

def ih0 : IntentHash := {}

def addr0 : AccountAddressOrIdentityAddress := .accountAddress

def e8 : PetitionOfTransactionByEntity :=
  { entity := addr0, transactionIndex := { index := 0, intentHash := ih0 },
    thresholdFactors := { input := { factors := [fi0], required := 2 },
                          state := { signed := [], skipped := [fi0] } },
    overrideFactors := PetitionWithFactors.newNotUsed }

/-- C8: whenever recording the skip on an entity petition produces a result
(rather than panicking), `status_if_skipped_factor_source` returns exactly
the combined status of that result, and the call leaves the original
petition — in particular the signed and skipped sets of both its lists —
unchanged: the source clones `self`, mutates only the clone, and reads the
clone's status. -/
theorem c8_status_if_skipped_simulates (e e' : PetitionOfTransactionByEntity)
    (fs : FactorSource) (h : e.skippedMut fs = some e') :
    e.statusIfSkippedFactorSource fs = some e'.status ∧
    (e.statusIfSkippedRun fs).2 = e := by
  constructor
  · unfold PetitionOfTransactionByEntity.statusIfSkippedFactorSource
    rw [h]
    rfl
  · rfl

theorem c8_witness :
    e8.skippedMut fs0 = some (PetitionOfTransactionByEntity.mk addr0 ⟨0, ih0⟩
      ⟨⟨[fi0], 2⟩, ⟨[], [fi0]⟩⟩ PetitionWithFactors.newNotUsed) ∧
    (e8.statusIfSkippedFactorSource fs0 = some (PetitionOfTransactionByEntity.mk addr0
        ⟨0, ih0⟩ ⟨⟨[fi0], 2⟩, ⟨[], [fi0]⟩⟩ PetitionWithFactors.newNotUsed).status ∧
      (e8.statusIfSkippedRun fs0).2 = e8) :=
  ⟨by decide, c8_status_if_skipped_simulates _ _ _ (by decide)⟩

/-- C10: `FactorSourceID` is a fieldless unit type, so any two ids are equal;
consequently a factor-list petition references every factor source exactly
when its factor list is non-empty, and an entity petition's list lookup
classifies every factor source as a threshold factor whenever the threshold
list is non-empty. -/
theorem c10_unit_id_collapses_lookup (p : PetitionWithFactors)
    (e : PetitionOfTransactionByEntity) (fs : FactorSource) (a b : FactorSourceID)
    (h : e.thresholdFactors.input.factors ≠ []) :
    a = b ∧
    (p.referencesFactorSource fs = true ↔ p.input.factors ≠ []) ∧
    e.petitionLookup fs = some .threshold := by
  refine ⟨Subsingleton.elim a b, referencesFactorSource_iff p fs, ?_⟩
  unfold PetitionOfTransactionByEntity.petitionLookup
  rw [if_pos ((referencesFactorSource_iff e.thresholdFactors fs).mpr h)]

theorem c10_witness :
    (PetitionWithFactors.mk ⟨[fi0], 2⟩ ⟨[], []⟩).input.factors ≠ [] ∧
    (FactorSourceID.mk = FactorSourceID.mk ∧
      ((PetitionWithFactors.mk ⟨[fi0], 1⟩ ⟨[], []⟩).referencesFactorSource fs0 = true ↔
        (PetitionWithFactors.mk ⟨[fi0], 1⟩ ⟨[], []⟩).input.factors ≠ []) ∧
      (PetitionOfTransactionByEntity.mk addr0 ⟨0, ih0⟩
          (PetitionWithFactors.mk ⟨[fi0], 2⟩ ⟨[], []⟩)
          PetitionWithFactors.newNotUsed).petitionLookup fs0 = some .threshold) :=
  ⟨by decide,
    c10_unit_id_collapses_lookup (PetitionWithFactors.mk ⟨[fi0], 1⟩ ⟨[], []⟩)
      (PetitionOfTransactionByEntity.mk addr0 ⟨0, ih0⟩
        (PetitionWithFactors.mk ⟨[fi0], 2⟩ ⟨[], []⟩) PetitionWithFactors.newNotUsed)
      fs0 FactorSourceID.mk FactorSourceID.mk (by decide)⟩

theorem foldl_indexSetInsert_append {α : Type} [DecidableEq α] :
    ∀ (l acc : List α), (acc ++ l).Nodup → l.foldl indexSetInsert acc = acc ++ l
  | [], acc, _ => by simp
  | x :: t, acc, h => by
    have hdisj : acc.Disjoint (x :: t) := List.disjoint_of_nodup_append h
    have hx : x ∉ acc := fun hmem => hdisj hmem (List.mem_cons_self x t)
    show t.foldl indexSetInsert (indexSetInsert acc x) = acc ++ x :: t
    rw [indexSetInsert, if_neg hx]
    have hstep := foldl_indexSetInsert_append t (acc ++ [x]) (by simpa using h)
    rw [hstep]
    simp

/-- Collecting a duplicate-free iterator into an `IndexSet` returns it
unchanged. -/
theorem indexSetOfList_of_nodup {α : Type} [DecidableEq α] (l : List α)
    (h : l.Nodup) : indexSetOfList l = l := by
  have := foldl_indexSetInsert_append l [] (by simpa using h)
  simpa [indexSetOfList] using this

theorem mem_indexSetInsert {α : Type} [DecidableEq α] (x y : α) (l : List α) :
    x ∈ indexSetInsert l y ↔ x ∈ l ∨ x = y := by
  unfold indexSetInsert
  by_cases hy : y ∈ l
  · rw [if_pos hy]
    constructor
    · exact Or.inl
    · rintro (h | rfl)
      · exact h
      · exact hy
  · rw [if_neg hy]
    simp

theorem mem_foldl_indexSetInsert {α : Type} [DecidableEq α] (x : α) :
    ∀ (l acc : List α), x ∈ l.foldl indexSetInsert acc ↔ x ∈ acc ∨ x ∈ l
  | [], acc => by simp
  | y :: t, acc => by
    show x ∈ t.foldl indexSetInsert (indexSetInsert acc y) ↔ _
    rw [mem_foldl_indexSetInsert x t (indexSetInsert acc y), mem_indexSetInsert]
    constructor
    · rintro ((h | rfl) | h)
      · exact Or.inl h
      · exact Or.inr (List.mem_cons_self _ _)
      · exact Or.inr (List.mem_cons_of_mem _ h)
    · rintro (h | h)
      · exact Or.inl (Or.inl h)
      · rcases List.mem_cons.mp h with rfl | h'
        · exact Or.inl (Or.inr rfl)
        · exact Or.inr h'

/-- Membership in a collected `IndexSet` is membership in the iterator. -/
theorem mem_indexSetOfList {α : Type} [DecidableEq α] (x : α) (l : List α) :
    x ∈ indexSetOfList l ↔ x ∈ l := by
  unfold indexSetOfList
  rw [mem_foldl_indexSetInsert]
  simp

/-- C9: for every intent hash and every duplicate-free collection of owned
factor instances, `batch_sign` returns shares that all carry the given intent
hash and a requested owned instance, and for every requested instance exactly
one share whose owned instance is that instance. -/
theorem c9_batch_sign_one_share_per_instance (fs : FactorSource) (ih : IntentHash)
    (ois : List OwnedFactorInstance) (h : ois.Nodup) :
    (∀ s ∈ fs.batchSign ih ois, s.intentHash = ih ∧ s.ownedFactorInstance ∈ ois) ∧
    (∀ oi ∈ ois,
      ((fs.batchSign ih ois).filter
        (fun s => s.ownedFactorInstance == oi)).length = 1) := by
  have hinj : Function.Injective (fun oi : OwnedFactorInstance =>
      SignatureByOwnedFactorForPayload.mk ih oi (fs.signOne ih oi.factorInstance)) := by
    intro a b hab
    exact congrArg SignatureByOwnedFactorForPayload.ownedFactorInstance hab
  have heq : fs.batchSign ih ois = ois.map (fun oi =>
      SignatureByOwnedFactorForPayload.mk ih oi (fs.signOne ih oi.factorInstance)) := by
    unfold FactorSource.batchSign
    exact indexSetOfList_of_nodup _ (h.map hinj)
  constructor
  · intro s hs
    rw [heq] at hs
    obtain ⟨oi, hoi, rfl⟩ := List.mem_map.mp hs
    exact ⟨rfl, hoi⟩
  · intro oi hoi
    rw [heq, List.filter_map, List.length_map]
    have hpred : ((fun s : SignatureByOwnedFactorForPayload => s.ownedFactorInstance == oi)
        ∘ (fun x : OwnedFactorInstance =>
          SignatureByOwnedFactorForPayload.mk ih x (fs.signOne ih x.factorInstance)))
        = (fun x : OwnedFactorInstance => x == oi) := rfl
    rw [hpred]
    rw [← List.countP_eq_length_filter]
    exact List.count_eq_one_of_mem h hoi

theorem c9_witness :
    ([OwnedFactorInstance.mk fi0 addr0].Nodup) ∧
    ((∀ s ∈ fs0.batchSign ih0 [OwnedFactorInstance.mk fi0 addr0],
        s.intentHash = ih0 ∧ s.ownedFactorInstance ∈ [OwnedFactorInstance.mk fi0 addr0]) ∧
      (∀ oi ∈ [OwnedFactorInstance.mk fi0 addr0],
        ((fs0.batchSign ih0 [OwnedFactorInstance.mk fi0 addr0]).filter
          (fun s => s.ownedFactorInstance == oi)).length = 1)) :=
  ⟨by decide, c9_batch_sign_one_share_per_instance fs0 ih0 _ (by decide)⟩

theorem traverseOption_mem {α β : Type} {f : α → Option β} :
    ∀ {l : List α} {ys : List β}, traverseOption f l = some ys →
      ∀ y ∈ ys, ∃ x ∈ l, f x = some y := by
  intro l
  induction l with
  | nil =>
    intro ys h y hy
    unfold traverseOption at h
    cases h
    cases hy
  | cons x t ihl =>
    intro ys h y hy
    unfold traverseOption at h
    cases hfx : f x with
    | none => rw [hfx] at h; cases h
    | some y0 =>
      rw [hfx] at h
      cases htr : traverseOption f t with
      | none => rw [htr] at h; cases h
      | some ys0 =>
        rw [htr] at h
        cases h
        rcases List.mem_cons.mp hy with rfl | hy'
        · exact ⟨x, List.mem_cons_self _ _, hfx⟩
        · obtain ⟨x', hx', hfx'⟩ := ihl htr y hy'
          exact ⟨x', List.mem_cons_of_mem _ hx', hfx'⟩

/-- Membership in a transaction petition's collected owned instances: an
owned instance is present exactly when some entity petition of the
transaction lists its factor instance and owns it. -/
theorem mem_transaction_allFactorInstances (t : PetitionOfTransaction)
    (x : OwnedFactorInstance) :
    x ∈ t.allFactorInstances ↔
      ∃ e ∈ t.forEntities,
        x.factorInstance ∈ e.allFactorInstances ∧ x.owner = e.entity := by
  unfold PetitionOfTransaction.allFactorInstances
  rw [mem_indexSetOfList, List.mem_flatMap]
  constructor
  · rintro ⟨e, he, hx⟩
    obtain ⟨fi, hfi, rfl⟩ := List.mem_map.mp hx
    exact ⟨e, he, hfi, rfl⟩
  · rintro ⟨e, he, hfi, hown⟩
    refine ⟨e, he, List.mem_map.mpr ⟨x.factorInstance, hfi, ?_⟩⟩
    cases x
    cases hown
    rfl

/-- C6: whenever `Petitions::input_for_factor_source` completes, each
per-transaction signing input holds exactly the owned factor instances of
that transaction whose factor-source id equals the given source's id — the
union across the transaction's entity petitions of their matching instances —
and no instance of any other factor source. -/
theorem c6_input_has_exactly_matching_instances (ps : Petitions) (fs : FactorSource)
    (out : BatchTransactionSigningInputForFactorSource)
    (ih : IntentHash) (inp : SigningInputForFactorSource)
    (hout : ps.inputForFactorSource fs = some out)
    (hmem : (ih, inp) ∈ out.inputForEachTransaction) :
    ∃ t : PetitionOfTransaction,
      assocGet ps.txidToPetition ih = some t ∧
      ∀ x : OwnedFactorInstance,
        x ∈ inp.factorInstances ↔
          ∃ e ∈ t.forEntities,
            x.factorInstance ∈ e.allFactorInstances ∧ x.owner = e.entity ∧
            x.factorInstance.factorSourceId = fs.id := by
  unfold Petitions.inputForFactorSource at hout
  simp only [bind, Option.bind_eq_some, Option.pure_def, Option.some.injEq] at hout
  obtain ⟨ihs, hihs, inputs, htrav, hout2⟩ := hout
  rw [← hout2] at hmem
  obtain ⟨txid, htxid, hg⟩ := traverseOption_mem htrav _ hmem
  simp only [bind, Option.bind_eq_some, Option.pure_def, Option.some.injEq,
    Prod.mk.injEq] at hg
  obtain ⟨t, ht, invalids, hinv, hih, hinp⟩ := hg
  refine ⟨t, by rw [Subsingleton.elim ih txid]; exact ht, ?_⟩
  intro x
  rw [← hinp]
  show x ∈ t.allFactorInstances ↔ _
  rw [mem_transaction_allFactorInstances]
  constructor
  · rintro ⟨e, he, hfi, hown⟩
    exact ⟨e, he, hfi, hown, Subsingleton.elim _ _⟩
  · rintro ⟨e, he, hfi, hown, _⟩
    exact ⟨e, he, hfi, hown⟩

def e6 : PetitionOfTransactionByEntity :=
  { entity := addr0, transactionIndex := { index := 0, intentHash := ih0 },
    thresholdFactors := { input := { factors := [fi0], required := 2 },
                          state := { signed := [], skipped := [fi0] } },
    overrideFactors := PetitionWithFactors.newNotUsed }

def tx6 : PetitionOfTransaction := { intentHash := ih0, forEntities := [e6] }

def ps6 : Petitions :=
  { factorToTxid := [({}, [ih0])], txidToPetition := [(ih0, tx6)] }

def out6 : BatchTransactionSigningInputForFactorSource :=
  { factorSource := fs0,
    inputForEachTransaction :=
      [(ih0, { factorSource := fs0, intentHash := ih0,
               factorInstances := [{ factorInstance := fi0, owner := addr0 }],
               entitiesWhichWouldFailAuth := [] })] }

theorem c6_witness :
    ps6.inputForFactorSource fs0 = some out6 ∧
    ((ih0, SigningInputForFactorSource.mk fs0 ih0
        [OwnedFactorInstance.mk fi0 addr0] []) ∈ out6.inputForEachTransaction) ∧
    (∃ t : PetitionOfTransaction,
      assocGet ps6.txidToPetition ih0 = some t ∧
      ∀ x : OwnedFactorInstance,
        x ∈ (SigningInputForFactorSource.mk fs0 ih0
            [OwnedFactorInstance.mk fi0 addr0] []).factorInstances ↔
          ∃ e ∈ t.forEntities,
            x.factorInstance ∈ e.allFactorInstances ∧ x.owner = e.entity ∧
            x.factorInstance.factorSourceId = fs0.id) :=
  ⟨by decide, by decide,
    c6_input_has_exactly_matching_instances ps6 fs0 out6 ih0 _ (by decide) (by decide)⟩

instance : IsTotal FactorSourceKind FactorSourceKind.le :=
  ⟨fun a b => by unfold FactorSourceKind.le; omega⟩

instance : IsTrans FactorSourceKind FactorSourceKind.le :=
  ⟨fun a b c hab hbc => by
    unfold FactorSourceKind.le at hab hbc ⊢; omega⟩

instance : IsTotal FactorSource FactorSource.le :=
  ⟨fun a b => by unfold FactorSource.le; omega⟩

instance : IsTrans FactorSource FactorSource.le :=
  ⟨fun a b c hab hbc => by
    unfold FactorSource.le at hab hbc ⊢; omega⟩

theorem kind_rank_inj (a b : FactorSourceKind) (h : a.rank = b.rank) : a = b := by
  cases a <;> cases b <;> first | rfl | (exact absurd h (by decide))

/-- The ordering property C7 claims of the per-kind map: the kinds iterate in
the fixed declaration order Ledger, Arculus, SecurityQuestions,
OffDeviceMnemonic, Device (strictly ascending rank); a kind is present
exactly when some used source has it; and each group holds exactly the used
sources of its kind, in strictly ascending `last_used` order (strict because
distinct used sources of one kind always differ in `last_used` — the id is
unit-typed — so there are no ties and any stable sort yields this order). -/
def FactorsOfKindOrdered (used : List FactorSource) : Prop :=
  ((factorsOfKind used).map Prod.fst).Pairwise
      (fun a b => a.rank < b.rank) ∧
  (∀ k, (∃ g, (k, g) ∈ factorsOfKind used) ↔ ∃ x ∈ used, x.kind = k) ∧
  ∀ k g, (k, g) ∈ factorsOfKind used →
    (∀ x, x ∈ g ↔ x ∈ used ∧ x.kind = k) ∧
    g.Pairwise (fun a b => a.lastUsed < b.lastUsed)

/-- C7: for every duplicate-free iteration order of the used factor sources,
the `factors_of_kind` map built by `SignaturesBuilder::new` iterates kinds in
the fixed order Ledger, Arculus, SecurityQuestions, OffDeviceMnemonic,
Device, and within each kind the factor sources in ascending `last_used`
order (stability on ties is vacuous: there are none). -/
theorem c7_factors_of_kind_ordered (used : List FactorSource) (h : used.Nodup) :
    FactorsOfKindOrdered used := by
  have hkeysmap : (factorsOfKind used).map Prod.fst
      = List.insertionSort FactorSourceKind.le ((used.map (fun f => f.kind)).dedup) := by
    unfold factorsOfKind
    rw [List.map_map]
    exact List.map_id' _
  have hkeysperm :
      (List.insertionSort FactorSourceKind.le ((used.map (fun f => f.kind)).dedup)).Perm
        ((used.map (fun f => f.kind)).dedup) :=
    List.perm_insertionSort _ _
  refine ⟨?_, ?_, ?_⟩
  · rw [hkeysmap]
    have hsorted : List.Sorted FactorSourceKind.le
        (List.insertionSort FactorSourceKind.le ((used.map (fun f => f.kind)).dedup)) :=
      List.sorted_insertionSort _ _
    have hnd : (List.insertionSort FactorSourceKind.le
        ((used.map (fun f => f.kind)).dedup)).Nodup :=
      hkeysperm.nodup_iff.mpr (List.nodup_dedup _)
    refine (hsorted.and hnd).imp ?_
    intro a b hab
    obtain ⟨hle, hne⟩ := hab
    unfold FactorSourceKind.le at hle
    rcases Nat.lt_or_ge a.rank b.rank with hlt | hge
    · exact hlt
    · have : a.rank = b.rank := by omega
      exact absurd (kind_rank_inj a b this) hne
  · intro k
    constructor
    · rintro ⟨g, hg⟩
      unfold factorsOfKind at hg
      obtain ⟨k', hk', hpair⟩ := List.mem_map.mp hg
      have hk : k' = k := congrArg Prod.fst hpair
      subst hk
      have : k' ∈ (used.map (fun f => f.kind)).dedup := hkeysperm.mem_iff.mp hk'
      obtain ⟨x, hx, hxk⟩ := List.mem_map.mp (List.mem_dedup.mp this)
      exact ⟨x, hx, hxk⟩
    · rintro ⟨x, hx, hxk⟩
      refine ⟨List.insertionSort FactorSource.le
          (used.filter (fun f => f.kind == k)), ?_⟩
      unfold factorsOfKind
      refine List.mem_map.mpr ⟨k, ?_, rfl⟩
      refine hkeysperm.mem_iff.mpr (List.mem_dedup.mpr ?_)
      exact List.mem_map.mpr ⟨x, hx, hxk⟩
  · intro k g hg
    unfold factorsOfKind at hg
    obtain ⟨k', hk', hpair⟩ := List.mem_map.mp hg
    have hk : k' = k := congrArg Prod.fst hpair
    subst hk
    have hgdef : g = List.insertionSort FactorSource.le
        (used.filter (fun f => f.kind == k')) :=
      (congrArg Prod.snd hpair).symm
    have hperm : g.Perm (used.filter (fun f => f.kind == k')) := by
      rw [hgdef]
      exact List.perm_insertionSort _ _
    constructor
    · intro x
      rw [hperm.mem_iff, List.mem_filter]
      simp
    · have hsorted : List.Sorted FactorSource.le g := by
        rw [hgdef]
        exact List.sorted_insertionSort _ _
      have hnd : g.Nodup := hperm.nodup_iff.mpr (h.filter _)
      refine (hsorted.and hnd).imp_of_mem ?_
      intro a b ha hb hab
      obtain ⟨hle, hne⟩ := hab
      have hka : a.kind = k' := by
        have := List.of_mem_filter (hperm.mem_iff.mp ha)
        simpa using this
      have hkb : b.kind = k' := by
        have := List.of_mem_filter (hperm.mem_iff.mp hb)
        simpa using this
      unfold FactorSource.le at hle
      rw [hka, hkb] at hle
      have hlu : a.lastUsed ≤ b.lastUsed := by omega
      rcases Nat.lt_or_ge a.lastUsed b.lastUsed with hlt | hge
      · exact hlt
      · exfalso
        apply hne
        have hlueq : a.lastUsed = b.lastUsed := by omega
        cases a with
        | mk ka la ia =>
          cases b with
          | mk kb lb ib =>
            simp only at hka hkb hlueq
            rw [hka, hkb, hlueq, Subsingleton.elim ia ib]

theorem c7_witness :
    ([FactorSource.mk .device 5 {}, FactorSource.mk .ledger 9 {},
      FactorSource.mk .device 1 {}].Nodup) ∧
    FactorsOfKindOrdered
      [FactorSource.mk .device 5 {}, FactorSource.mk .ledger 9 {},
        FactorSource.mk .device 1 {}] :=
  ⟨by decide, c7_factors_of_kind_ordered _ (by decide)⟩

end RustFactors
